import Mathlib

/-
Verification of the core agent runtime of the Ollama local AI sandbox.

The development shallowly embeds the parts of the runtime the checked
properties talk about:

  * src/agent/response.py      — Response, ToolCall
  * src/agent/agent.py         — the monologue loop, batch tool execution,
                                 per-call caching / timeout handling, history
                                 appends, the tool cache key
  * src/agent/output_parser.py — payload normalisation, validation, and the
                                 strategy loop of extract_tool_calls
  * src/extensions/extension_manager.py — hook dispatch
  * src/agent/model_router.py + src/agent/models.py — model selection and
                                 model-availability filtering

Modelling conventions: Python dicts become association lists (first match on
lookup, insert keeps insertion order like a dict); JSON numbers are modelled
as integers plus decimal values (mantissa and scale) for floats; effectful
primitives of foreign libraries (json.loads with textual repair, the regex
payload extractors, the awaited coroutine of a tool run) are taken as
function parameters, while all control flow around them is embedded from the
source.  Timeouts are modelled in tenths of a second, the granularity of the
"%.1f" rendering the code uses when it reports them.
-/

namespace AgentCore

/-- A JSON value as produced by json.loads.  Integers and floats are kept
apart the way Python keeps int and float apart; a float is modelled as a
decimal value mant / 10 ^ scale. -/
inductive Json where
  | null
  | bool (b : Bool)
  | num (n : Int)
  | fnum (mant : Int) (scale : Nat)
  | str (s : String)
  | arr (elems : List Json)
  | obj (fields : List (String × Json))

/-- Result from a tool execution (src/agent/response.py, Response).  The
break_loop field defaults to False there. -/
structure Response where
  message : String
  breakLoop : Bool := false
  deriving DecidableEq

/-- Parsed tool invocation from LLM output (src/agent/response.py, ToolCall).
The args dict is an association list of JSON values. -/
structure ToolCall where
  name : String
  args : List (String × Json) := []

/-- One entry of an agent's conversation history.  append_message also stores
a created_at timestamp, which no checked property mentions and which is left
out of the model. -/
structure Message where
  role : String
  content : String
  deriving DecidableEq

/-- Python dict membership for the association lists that model dicts. -/
def dictContains (d : List (String × Json)) (k : String) : Bool :=
  (d.lookup k).isSome

/-- Python dict assignment d[k] = v: replace in place when the key exists,
append otherwise (dicts keep insertion order). -/
def dictSet (d : List (String × Json)) (k : String) (v : Json) :
    List (String × Json) :=
  if dictContains d k then
    d.map (fun kv => if kv.1 = k then (k, v) else kv)
  else d ++ [(k, v)]

/-- Insert one field into a key-sorted field list (strict comparison keeps
equal keys stable, matching Python's stable sorted). -/
def insertField (g : String × Json) : List (String × Json) → List (String × Json)
  | [] => [g]
  | f :: fs => if g.1 < f.1 then g :: f :: fs else f :: insertField g fs

/-- Sort a field list by key, the effect of json.dumps(..., sort_keys=True)
on one object level. -/
def sortFields (fs : List (String × Json)) : List (String × Json) :=
  fs.foldl (fun acc f => insertField f acc) []

/-- Sort the fields of every object inside a JSON value, the recursive part
of json.dumps(..., sort_keys=True). -/
def sortJson : Json → Json
  | .null => .null
  | .bool b => .bool b
  | .num n => .num n
  | .fnum m s => .fnum m s
  | .str s => .str s
  | .arr elems => .arr (elems.attach.map (fun j => sortJson j.1))
  | .obj fields => .obj (sortFields (fields.attach.map (fun f => (f.1.1, sortJson f.1.2))))
decreasing_by
  · have := List.sizeOf_lt_of_mem j.2
    simp_wf
    omega
  · have := List.sizeOf_lt_of_mem f.2
    simp_wf
    cases h : f.1
    simp [h] at this ⊢
    omega

/-- Minimal JSON string escaping (quote, backslash and the common control
characters), the fragment of json.dumps string encoding the runtime can
produce in the strings the properties mention. -/
def escapeChar (c : Char) : String :=
  if c = '"' then "\\" ++ "\""
  else if c = '\\' then "\\\\"
  else if c = '\n' then "\\n"
  else if c = '\t' then "\\t"
  else if c = '\r' then "\\r"
  else String.singleton c

/-- Escape a whole string for JSON output. -/
def escapeString (s : String) : String :=
  String.join (s.toList.map escapeChar)

/-- Python str.lower on the ASCII texts the runtime compares (an executable
model of str.lower and of re.IGNORECASE folding). -/
def pyLower (s : String) : String :=
  String.mk (s.toList.map Char.toLower)

/-- Drop leading whitespace characters. -/
def dropLeadingWhite : List Char → List Char
  | [] => []
  | c :: cs => if c.isWhitespace then dropLeadingWhite cs else c :: cs

/-- Python str.strip with no arguments: drop leading and trailing
whitespace. -/
def pyStrip (s : String) : String :=
  String.mk ((dropLeadingWhite (dropLeadingWhite s.toList).reverse).reverse)

/-- Left-pad a digit string with zeros to the given width. -/
def padLeftZeros (s : String) (n : Nat) : String :=
  if s.length ≥ n then s else String.mk (List.replicate (n - s.length) '0') ++ s

/-- Render the decimal value mant / 10 ^ scale the way Python renders the
corresponding float. -/
def fmtDecimal (mant : Int) (scale : Nat) : String :=
  if scale = 0 then toString mant ++ ".0"
  else
    let sign := if mant < 0 then "-" else ""
    let a := mant.natAbs
    let p := 10 ^ scale
    sign ++ toString (a / p) ++ "." ++ padLeftZeros (toString (a % p)) scale

/-- json.dumps of an already key-sorted value, with Python's default
", " and ": " separators. -/
def dumps : Json → String
  | .null => "null"
  | .bool true => "true"
  | .bool false => "false"
  | .num n => toString n
  | .fnum m s => fmtDecimal m s
  | .str s => "\"" ++ escapeString s ++ "\""
  | .arr elems =>
    "[" ++ String.intercalate ", " (elems.attach.map (fun j => dumps j.1)) ++ "]"
  | .obj fields =>
    "\x7b" ++
      String.intercalate ", "
        (fields.attach.map (fun f => "\"" ++ escapeString f.1.1 ++ "\": " ++ dumps f.1.2)) ++
      "\x7d"
decreasing_by
  · have := List.sizeOf_lt_of_mem j.2
    simp_wf
    omega
  · have := List.sizeOf_lt_of_mem f.2
    simp_wf
    cases h : f.1
    simp [h] at this ⊢
    omega

/-- Python repr of a parsed JSON value (containers use single quotes on
strings; the quoting of special characters inside is not modelled). -/
def pyRepr : Json → String
  | .null => "None"
  | .bool true => "True"
  | .bool false => "False"
  | .num n => toString n
  | .fnum m s => fmtDecimal m s
  | .str s => "'" ++ s ++ "'"
  | .arr elems =>
    "[" ++ String.intercalate ", " (elems.attach.map (fun j => pyRepr j.1)) ++ "]"
  | .obj fields =>
    "\x7b" ++
      String.intercalate ", "
        (fields.attach.map (fun f => "'" ++ f.1.1 ++ "': " ++ pyRepr f.1.2)) ++
      "\x7d"
decreasing_by
  · have := List.sizeOf_lt_of_mem j.2
    simp_wf
    omega
  · have := List.sizeOf_lt_of_mem f.2
    simp_wf
    cases h : f.1
    simp [h] at this ⊢
    omega

/-- Python str applied to a parsed JSON value: identity on strings, repr-like
on everything else. -/
def pyStr : Json → String
  | .str s => s
  | v => pyRepr v

/-- src/agent/agent.py _tool_cache_key: tool name, a colon, and the
key-sorted JSON dump of the args dict.  (The fallback for non-serialisable
args cannot arise for values of the Json type and is not modelled.) -/
def toolCacheKey (tc : ToolCall) : String :=
  tc.name ++ ":" ++ dumps (sortJson (Json.obj tc.args))

/-- The tool surface the executor consumes (src/tools/base_tool.py): the
dynamic refinements should_cache and is_parallel_safe applied to the call's
kwargs, and the optional per-tool timeout override, in tenths of a second.
The effectful before/execute/after operations appear through the ExecOutcome
oracle below. -/
structure Tool where
  shouldCache : List (String × Json) → Bool
  isParallelSafe : List (String × Json) → Bool
  timeoutSeconds : Option Nat := none

/-- The tool_execution block of the agent configuration
(src/agent/config.py, ToolExecutionConfig), timeouts in tenths of a
second. -/
structure ToolExecutionConfig where
  defaultTimeout : Nat := 300
  timeouts : List (String × Nat) := []
  cacheEnabled : Bool := true

/-- The tool registry as the executor sees it: canonical name to tool
instance.  tool_names is the sorted key list (src/tools/tool_registry.py). -/
structure ToolRegistry where
  tools : List (String × Tool)

/-- ToolRegistry.get_tool. -/
def getTool (reg : ToolRegistry) (name : String) : Option Tool :=
  reg.tools.lookup name

/-- Insert into a sorted string list (helper for the sorted tool_names). -/
def insertSorted (s : String) : List String → List String
  | [] => [s]
  | t :: ts => if s < t then s :: t :: ts else t :: insertSorted s ts

/-- ToolRegistry.tool_names: sorted(self._tool_classes.keys()). -/
def toolNames (reg : ToolRegistry) : List String :=
  (reg.tools.map Prod.fst).foldl (fun acc s => insertSorted s acc) []

/-- src/agent/agent.py _get_tool_timeout: explicit per-tool config override,
then the tool's own timeout_seconds, then the global default. -/
def getToolTimeout (cfg : ToolExecutionConfig) (toolName : String) (tool : Tool) : Nat :=
  match cfg.timeouts.lookup toolName with
  | some t => t
  | none =>
    match tool.timeoutSeconds with
    | some t => t
    | none => cfg.defaultTimeout

/-- Render a tenths-of-a-second timeout the way the f-string "%.1f" renders
the corresponding float. -/
def fmtTenths (t : Nat) : String :=
  toString (t / 10) ++ "." ++ toString (t % 10)

/-- One entry of the per-session tool cache: the dict
\x7b"message": ..., "break_loop": ...\x7d stored under the cache key. -/
structure CacheEntry where
  message : String
  breakLoop : Bool
  deriving DecidableEq

/-- The per-session tool cache (context.data["tool_cache"]), a dict modelled
as an association list where insertion prepends and lookup takes the first
match. -/
abbrev ToolCache := List (String × CacheEntry)

/-- Outcome of awaiting the tool's before/execute/after sequence under
asyncio.wait_for: a response, a TimeoutError, or some other exception with
its rendered text. -/
inductive ExecOutcome where
  | ok (response : Response)
  | timedOut
  | raised (err : String)

/-- What one run of _execute_tool_with_instance produces: the (Response,
cached) pair the method returns, the session cache afterwards, and whether
the before/execute/after sequence was entered (false exactly on a cache
hit). -/
structure ExecResult where
  response : Response
  fromCache : Bool
  cache : ToolCache
  executed : Bool

/-- src/agent/agent.py _execute_tool_with_instance, lines 378-419.  The
awaited coroutine and its race against the timeout are abstracted into the
outcome oracle; everything else (cache gate, cache hit short-circuit, the
timeout and error response texts, the unconditional cache insert for
cacheable calls) is embedded from the source. -/
def executeToolWithInstance (cfg : ToolExecutionConfig) (cache : ToolCache)
    (outcome : ExecOutcome) (tc : ToolCall) (tool : Tool) : ExecResult :=
  let cacheKey := toolCacheKey tc
  let canCache := cfg.cacheEnabled && tool.shouldCache tc.args
  match (if canCache then cache.lookup cacheKey else none) with
  | some entry =>
    { response := { message := entry.message, breakLoop := entry.breakLoop },
      fromCache := true, cache := cache, executed := false }
  | none =>
    let timeout := getToolTimeout cfg tc.name tool
    let response :=
      match outcome with
      | .ok r => r
      | .timedOut =>
        { message := "[Tool '" ++ tc.name ++ "' timed out after " ++ fmtTenths timeout ++ "s]" }
      | .raised e =>
        { message := "[Tool '" ++ tc.name ++ "' error: " ++ e ++ "]" }
    let cache' :=
      if canCache then (cacheKey, ⟨response.message, response.breakLoop⟩) :: cache
      else cache
    { response := response, fromCache := false, cache := cache', executed := true }

/-- The unknown-tool error text of _run_tool_call / _execute_tool. -/
def unknownToolMessage (names : List String) (toolName : String) : String :=
  "[Error: Unknown tool '" ++ toolName ++ "'. Available tools: " ++
    String.intercalate ", " names ++ "]"

/-- src/agent/agent.py _run_tool_call, lines 347-376: unknown tools produce
the error response, known tools run via _execute_tool_with_instance; the
triple (tool_call, response, cached) is returned together with the cache
state afterwards.  The hook dispatches and telemetry around the run do not
touch the triple. -/
def runToolCall (cfg : ToolExecutionConfig) (names : List String) (cache : ToolCache)
    (outcome : ExecOutcome) (tc : ToolCall) (tool : Option Tool) :
    (ToolCall × Response × Bool) × ToolCache :=
  match tool with
  | none => ((tc, { message := unknownToolMessage names tc.name }, false), cache)
  | some t =>
    let r := executeToolWithInstance cfg cache outcome tc t
    ((tc, r.response, r.fromCache), r.cache)

/-- The sequential branch of _execute_tool_calls: calls awaited one by one
in input order, threading the session cache; the outcome oracle is indexed
by input position. -/
def runToolCallsSeq (cfg : ToolExecutionConfig) (names : List String)
    (outcomes : Nat → ExecOutcome) :
    ToolCache → Nat → List (ToolCall × Option Tool) → List (ToolCall × Response × Bool)
  | _, _, [] => []
  | cache, i, (tc, tool) :: rest =>
    let r := runToolCall cfg names cache (outcomes i) tc tool
    r.1 :: runToolCallsSeq cfg names outcomes r.2 (i + 1) rest

/-- The concurrent branch of _execute_tool_calls: one task per call, created
in input order, joined by asyncio.gather, which yields the task results in
creation order.  The session-cache state each task observes depends on the
interleaving and is supplied by the caches oracle. -/
def runToolCallsGather (cfg : ToolExecutionConfig) (names : List String)
    (caches : Nat → ToolCache) (outcomes : Nat → ExecOutcome) :
    Nat → List (ToolCall × Option Tool) → List (ToolCall × Response × Bool)
  | _, [] => []
  | i, (tc, tool) :: rest =>
    (runToolCall cfg names (caches i) (outcomes i) tc tool).1 ::
      runToolCallsGather cfg names caches outcomes (i + 1) rest

/-- src/agent/agent.py _execute_tool_calls, lines 316-345: resolve every
call's tool, gate on the parallel-safety of the whole batch, then run the
batch sequentially (singleton or not all parallel-safe) or concurrently. -/
def executeToolCalls (cfg : ToolExecutionConfig) (reg : ToolRegistry)
    (cache : ToolCache) (caches : Nat → ToolCache) (outcomes : Nat → ExecOutcome)
    (toolCalls : List ToolCall) : List (ToolCall × Response × Bool) :=
  if toolCalls.isEmpty then []
  else
    let prepared := toolCalls.map (fun tc => (tc, getTool reg tc.name))
    let allParallelSafe := prepared.all (fun p =>
      match p.2 with
      | none => false
      | some t => t.isParallelSafe p.1.args)
    if toolCalls.length == 1 || !allParallelSafe then
      runToolCallsSeq cfg (toolNames reg) outcomes cache 0 prepared
    else
      runToolCallsGather cfg (toolNames reg) (caches) outcomes 0 prepared

/-- src/agent/agent.py append_message: roles outside user/assistant/system
are stored as system. -/
def ollamaRole (role : String) : String :=
  if role = "user" || role = "assistant" || role = "system" then role else "system"

/-- append_message as history transformation (persistence side effects are
swallowed by the source and left out). -/
def appendMessage (history : List Message) (role content : String) : List Message :=
  history ++ [{ role := ollamaRole role, content := content }]

/-- The system message recorded for one tool result in the monologue loop
(src/agent/agent.py lines 227-230). -/
def toolResultMessage (tc : ToolCall) (response : Response) : String :=
  "[Tool '" ++ tc.name ++ "' result]:\n" ++ response.message

/-- History growth of one monologue iteration that parsed at least one tool
call (steps 7 and 9 of the loop): append the assistant message holding the
full LLM response, then one system message per executor result, in result
order. -/
def iterationHistory (history : List Message) (fullResponse : String)
    (results : List (ToolCall × Response × Bool)) : List Message :=
  let h1 := appendMessage history "assistant" fullResponse
  results.foldl (fun h r => appendMessage h "system" (toolResultMessage r.1 r.2.1)) h1

/-- Outcome of the streaming LLM call of one iteration, split the way the
except clauses of the monologue split it. -/
inductive LlmOutcome where
  | modelError (e : String)
  | connectionError (e : String)
  | otherError (e : String)
  | ok (text : String)

/-- What one monologue iteration observes: the LLM outcome and, when the
call succeeded, the executor results for whatever tool calls were parsed
from the response text (empty when none were). -/
structure IterationData where
  llm : LlmOutcome
  results : List (ToolCall × Response × Bool)

/-- The loop-control decision of one monologue iteration: some s means the
loop returns s, none means it continues.  An LLM error returns the bracketed
error text; otherwise the first result whose response has break_loop set
returns that response's message (the final_response scan of lines 219-243);
with no such result the loop continues. -/
def iterationDecision (d : IterationData) : Option String :=
  match d.llm with
  | .modelError e => some ("[LLM Model Error: " ++ e ++ "]")
  | .connectionError e => some ("[LLM Connection Error: " ++ e ++ "]")
  | .otherError e => some ("[LLM Error: " ++ e ++ "]")
  | .ok _ =>
    match d.results.find? (fun r => r.2.1.breakLoop) with
    | some r => some r.2.1.message
    | none => none

/-- The fallback literal returned when the iteration cap is reached
(src/agent/agent.py line 252). -/
def monologueFallback : String :=
  "[Agent reached maximum iterations without producing a final response]"

/-- The while loop of the monologue (lines 82-255), from a given iteration
counter value: run iterations while iteration < max_iter, return what an
iteration decides to return, and fall back to the fixed literal at the cap.
The steps oracle gives the data iteration i observes (i counted from 1 as in
the source). -/
def monologueFrom (steps : Nat → IterationData) (maxIter : Nat) (iteration : Nat) : String :=
  if iteration < maxIter then
    match iterationDecision (steps (iteration + 1)) with
    | some s => s
    | none => monologueFrom steps maxIter (iteration + 1)
  else monologueFallback
termination_by maxIter - iteration

/-- One whole monologue turn: the loop started at iteration = 0. -/
def monologue (steps : Nat → IterationData) (maxIter : Nat) : String :=
  monologueFrom steps maxIter 0

/-- Behaviour of one extension's hook handler when invoked: it returns a
value (possibly None) or raises. -/
inductive HandlerBehavior (α : Type) where
  | returns (value : Option α)
  | raises (err : String)

/-- One registered extension as the dispatcher sees it for a fixed hook
name: its enabled flag and the handler getattr finds (none when the
extension has no method of that name). -/
structure Ext (α : Type) where
  name : String
  enabled : Bool
  handler : Option (HandlerBehavior α)

/-- The loop body of ExtensionManager.dispatch (lines 51-63), with the
running result made explicit: disabled extensions and extensions without the
method are skipped, a raised exception is caught and leaves the result
unchanged, a non-None return value replaces the result. -/
def dispatchFrom {α : Type} (result : Option α) : List (Ext α) → Option α
  | [] => result
  | ext :: rest =>
    if !ext.enabled then dispatchFrom result rest
    else
      match ext.handler with
      | none => dispatchFrom result rest
      | some (.raises _) => dispatchFrom result rest
      | some (.returns none) => dispatchFrom result rest
      | some (.returns (some v)) => dispatchFrom (some v) rest

/-- src/extensions/extension_manager.py dispatch, lines 43-64. -/
def dispatch {α : Type} (exts : List (Ext α)) : Option α :=
  dispatchFrom none exts

/-- The non-None values the dispatch loop would collect, in registration
order: one per enabled extension whose handler exists and returns a value. -/
def handlerReturns {α : Type} (exts : List (Ext α)) : List α :=
  exts.filterMap (fun ext =>
    if ext.enabled then
      match ext.handler with
      | some (.returns (some v)) => some v
      | _ => none
    else none)

/-- Word characters of the regex word boundary (the texts the router
inspects are ASCII, where Python's \w is alphanumerics plus underscore). -/
def isWordChar (c : Char) : Bool :=
  c.isAlphanum || c = '_'

/-- Match a literal pattern against the head of the text, returning the rest
of the text after the match. -/
def matchHere : List Char → List Char → Option (List Char)
  | [], rest => some rest
  | _ :: _, [] => none
  | p :: ps, c :: cs => if p = c then matchHere ps cs else none

/-- Does the literal pattern occur at the head of the text, with a word
boundary in front (when needLead, given the preceding character) and behind
(when needTrail)?  Sound for the patterns the router uses, whose first and
last characters are word characters wherever a boundary is required. -/
def litHitHere (pat : List Char) (prev : Option Char) (text : List Char)
    (needLead needTrail : Bool) : Bool :=
  (if needLead then
    match prev with
    | none => true
    | some c => !isWordChar c
   else true) &&
  (match matchHere pat text with
   | none => false
   | some rest =>
     if needTrail then
       match rest with
       | [] => true
       | c :: _ => !isWordChar c
     else true)

/-- Scan the text for an occurrence of the literal pattern under the given
boundary requirements, tracking the previous character. -/
def searchFrom (pat : List Char) (needLead needTrail : Bool) :
    Option Char → List Char → Bool
  | _, [] => false
  | prev, c :: cs =>
    litHitHere pat prev (c :: cs) needLead needTrail ||
      searchFrom pat needLead needTrail (some c) cs

/-- re.search of a word-bounded literal pattern (the keyword patterns). -/
def searchWord (w : String) (t : String) : Bool :=
  searchFrom w.toList true true none t.toList

/-- re.search of a literal pattern with only a trailing word boundary (the
file-extension alternatives, whose leading dot needs no boundary). -/
def searchTrailDot (w : String) (t : String) : Bool :=
  searchFrom w.toList false true none t.toList

/-- Plain substring containment (the triple-backtick test). -/
def containsSub (w : String) (t : String) : Bool :=
  searchFrom w.toList false false none t.toList

/-- str.startswith, on the character lists of the model. -/
def strStartsWith (s pre : String) : Bool :=
  (matchHere pre.toList s.toList).isSome

/-- The code_keywords of ModelRouter._looks_like_code, each searched as
\bword\b, case-sensitively. -/
def codeKeywords : List String :=
  ["def", "class", "import", "function", "const", "let", "var", "return",
   "async", "await", "public", "static"]

/-- The file-extension alternatives of the pattern
\.(py|js|ts|java|go|rs|cpp|c|cs|rb|php|sh)\b. -/
def fileExts : List String :=
  [".py", ".js", ".ts", ".java", ".go", ".rs", ".cpp", ".c", ".cs", ".rb",
   ".php", ".sh"]

/-- src/agent/model_router.py _looks_like_code. -/
def looksLikeCode (text : String) : Bool :=
  containsSub "```" text ||
  codeKeywords.any (fun w => searchWord w text) ||
  fileExts.any (fun w => searchTrailDot w text)

/-- The summary keywords of _looks_like_summary (matched with IGNORECASE,
modelled by lowering the text). -/
def summaryKeywords : List String :=
  ["summarize", "summary", "tl;dr", "condense", "brief", "overview",
   "high-level", "key points"]

/-- src/agent/model_router.py _looks_like_summary. -/
def looksLikeSummary (text : String) : Bool :=
  summaryKeywords.any (fun w => searchWord w (pyLower text))

/-- src/agent/model_router.py _last_user_message: content of the most recent
user message, empty string when none exists. -/
def lastUserMessage (messages : List Message) : String :=
  match messages.reverse.find? (fun m => m.role = "user") with
  | some m => m.content
  | none => ""

/-- src/agent/model_router.py _route_from_messages. -/
def routeFromMessages (messages : List Message) : String :=
  let text := lastUserMessage messages
  if text = "" then "default"
  else if looksLikeCode text then "coding"
  else if looksLikeSummary text then "summarization"
  else "reasoning"

/-- The model_router block of the configuration: enabled flag, route table,
tool-affinity table. -/
structure ModelRouterConfig where
  enabled : Bool
  routes : List (String × String)
  toolAffinity : List (String × String)

/-- src/agent/model_router.py _route_from_tool: a falsy tool name yields no
route; otherwise the affinity table is consulted. -/
def routeFromTool (cfg : ModelRouterConfig) (toolName : Option String) : Option String :=
  match toolName with
  | none => none
  | some name => if name = "" then none else cfg.toolAffinity.lookup name

/-- The _default_model computed in ModelRouter.__init__:
routes.get("default") or the configured chat model (a falsy route value
falls through to the chat model). -/
def defaultModel (cfg : ModelRouterConfig) (chatModelName : String) : String :=
  match cfg.routes.lookup "default" with
  | some s => if s = "" then chatModelName else s
  | none => chatModelName

/-- src/agent/model_router.py _model_for_route: a falsy route key yields the
default model, otherwise the route table with the default as fallback. -/
def modelForRoute (cfg : ModelRouterConfig) (chatModelName : String)
    (routeKey : Option String) : String :=
  match routeKey with
  | none => defaultModel cfg chatModelName
  | some k =>
    if k = "" then defaultModel cfg chatModelName
    else
      match cfg.routes.lookup k with
      | some m => m
      | none => defaultModel cfg chatModelName

/-- src/agent/models.py _model_available: exact name, or any available name
starting with "name:". -/
def modelAvailable (required : String) (available : List String) : Bool :=
  available.contains required ||
    available.any (fun n => strStartsWith n (required ++ ":"))

/-- src/agent/models.py filter_missing_models: drop falsy names on both
sides, keep the required names that are not available. -/
def filterMissingModels (requiredModels availableModels : List String) : List String :=
  let available := availableModels.filter (fun m => m ≠ "")
  requiredModels.filter (fun r => r ≠ "" && !modelAvailable r available)

/-- src/agent/model_router.py _is_available: a falsy model is unavailable,
no observed list means available, otherwise the filter must leave nothing
missing. -/
def isAvailable (availableModels : Option (List String)) (model : String) : Bool :=
  if model = "" then false
  else
    match availableModels with
    | none => true
    | some avail => (filterMissingModels [model] avail).isEmpty

/-- The route key select_model resolves before the availability filter:
tool affinity first, the message heuristics otherwise (lines 54-56). -/
def routeKeyFor (cfg : ModelRouterConfig) (messages : List Message)
    (lastToolName : Option String) : Option String :=
  match routeFromTool cfg lastToolName with
  | some k => some k
  | none => some (routeFromMessages messages)

/-- src/agent/model_router.py select_model, lines 49-66: disabled routing
returns the chat model; otherwise the routed model when available, then the
default model when available, then the chat model. -/
def selectModel (cfg : ModelRouterConfig) (chatModelName : String)
    (availableModels : Option (List String)) (messages : List Message)
    (lastToolName : Option String) : String :=
  if !cfg.enabled then chatModelName
  else
    let model := modelForRoute cfg chatModelName (routeKeyFor cfg messages lastToolName)
    if isAvailable availableModels model then model
    else
      let fallback := defaultModel cfg chatModelName
      if isAvailable availableModels fallback then fallback
      else chatModelName

/-- Intermediate representation of a parsed tool call
(src/agent/output_parser.py, ParsedTool). -/
structure ParsedTool where
  name : String
  args : List (String × Json)

/-- The Python types an arg_schema entry can name (str, int, float, bool,
NoneType, dict, list); a schema entry is a list of them, modelling a single
type or a tuple of types. -/
inductive PyTy where
  | pyStrTy
  | pyIntTy
  | pyFloatTy
  | pyBoolTy
  | pyNoneTy
  | pyDictTy
  | pyListTy
  deriving DecidableEq

/-- Python isinstance on parsed JSON values; True and False are instances of
int as well as bool, as in Python. -/
def isInstance (v : Json) (t : PyTy) : Bool :=
  match v, t with
  | .str _, .pyStrTy => true
  | .num _, .pyIntTy => true
  | .bool _, .pyBoolTy => true
  | .bool _, .pyIntTy => true
  | .fnum _ _, .pyFloatTy => true
  | .null, .pyNoneTy => true
  | .obj _, .pyDictTy => true
  | .arr _, .pyListTy => true
  | _, _ => false

/-- str.isdigit: non-empty and all digits. -/
def pyIsDigit (s : String) : Bool :=
  !s.isEmpty && s.toList.all (fun c => c.isDigit)

/-- Decimal digits to a natural number. -/
def digitsToNat (cs : List Char) : Nat :=
  cs.foldl (fun acc c => acc * 10 + (c.toNat - 48)) 0

/-- Split leading decimal digits off a character list. -/
def takeDigits : List Char → List Char × List Char
  | [] => ([], [])
  | c :: rest =>
    if c.isDigit then
      let r := takeDigits rest
      (c :: r.1, r.2)
    else ([], c :: rest)

/-- Python float() on a string, modelled for optionally signed plain decimal
literals (exponents and the inf/nan forms are outside the model); none
models the ValueError. -/
def pyFloatOfString (s : String) : Option Json :=
  let cs := (pyStrip s).toList
  let signed : Int × List Char :=
    match cs with
    | '+' :: rest => (1, rest)
    | '-' :: rest => (-1, rest)
    | _ => (1, cs)
  let ip := takeDigits signed.2
  match ip.2 with
  | [] =>
    if ip.1.isEmpty then none
    else some (Json.fnum (signed.1 * Int.ofNat (digitsToNat ip.1)) 0)
  | '.' :: rest =>
    let fp := takeDigits rest
    if !fp.2.isEmpty then none
    else if ip.1.isEmpty && fp.1.isEmpty then none
    else some (Json.fnum (signed.1 * Int.ofNat (digitsToNat (ip.1 ++ fp.1))) fp.1.length)
  | _ => none

/-- Is the value Python's None? -/
def isNullJson : Json → Bool
  | .null => true
  | _ => false

/-- src/agent/output_parser.py _coerce_value: None passes when NoneType is
accepted; anything stringifies when str is accepted; strings coerce to int
(isdigit) or float (parseable) when a numeric type is accepted, a float
parse failure rejecting; otherwise plain isinstance decides. -/
def coerceValue (value : Json) (expected : List PyTy) : Json × Bool :=
  if isNullJson value && expected.contains PyTy.pyNoneTy then (value, true)
  else if expected.contains PyTy.pyStrTy && !isInstance value PyTy.pyStrTy then
    (Json.str (pyStr value), true)
  else
    match value with
    | Json.str s =>
      if expected.contains PyTy.pyIntTy || expected.contains PyTy.pyFloatTy then
        if expected.contains PyTy.pyIntTy && pyIsDigit s then
          (Json.num (Int.ofNat (digitsToNat s.toList)), true)
        else if expected.contains PyTy.pyFloatTy then
          match pyFloatOfString s with
          | some f => (f, true)
          | none => (value, false)
        else if expected.any (fun t => isInstance value t) then (value, true)
        else (value, false)
      else if expected.any (fun t => isInstance value t) then (value, true)
      else (value, false)
    | _ =>
      if expected.any (fun t => isInstance value t) then (value, true)
      else (value, false)

/-- src/agent/output_parser.py _normalize_args: the fixed alias table for
common model mistakes (message/content/answer to text for response and
task_done, script/command to code for code_execution, query to text for
memory). -/
def normalizeArgs (toolName : String) (args : List (String × Json)) :
    List (String × Json) :=
  let args :=
    if (toolName = "response" || toolName = "task_done") && !dictContains args "text" then
      match (["message", "content", "answer"].find? (fun alt => dictContains args alt)) with
      | some alt => dictSet args "text" ((args.lookup alt).getD Json.null)
      | none => args
    else args
  let args :=
    if toolName = "code_execution" && !dictContains args "code" then
      match (["script", "command"].find? (fun alt => dictContains args alt)) with
      | some alt => dictSet args "code" ((args.lookup alt).getD Json.null)
      | none => args
    else args
  if toolName = "memory" && !dictContains args "text" && dictContains args "query" then
    dictSet args "text" ((args.lookup "query").getD Json.null)
  else args

/-- src/agent/output_parser.py _normalize_payload: non-objects are rejected;
the tool/name and args/arguments key aliases are canonicalised; the tool
name is stringified and stripped and must be non-empty; non-object tool_args
become the empty dict; the per-tool arg aliases are applied. -/
def normalizePayload (data : Json) : Except String ParsedTool :=
  match data with
  | Json.obj fields =>
    let fields :=
      if dictContains fields "tool_name" then fields
      else
        match (["tool", "name"].find? (fun alt => dictContains fields alt)) with
        | some alt => dictSet fields "tool_name" ((fields.lookup alt).getD Json.null)
        | none => fields
    let fields :=
      if dictContains fields "tool_args" then fields
      else
        match (["args", "arguments"].find? (fun alt => dictContains fields alt)) with
        | some alt => dictSet fields "tool_args" ((fields.lookup alt).getD Json.null)
        | none => fields
    let toolName := pyStrip (pyStr ((fields.lookup "tool_name").getD (Json.str "")))
    if toolName = "" then Except.error "Missing tool_name"
    else
      let args :=
        match fields.lookup "tool_args" with
        | some (Json.obj a) => a
        | some _ => []
        | none => []
      Except.ok { name := toolName, args := normalizeArgs toolName args }
  | _ => Except.error "JSON payload is not an object"

/-- A tool's schema as get_tool_schemas exposes it to the parser. -/
structure ToolSchema where
  argSchema : List (String × List PyTy)
  requiredArgs : List String

/-- The registered-tools map built at the top of extract_tool_calls:
lowered name to canonical name. -/
def registeredMap (toolList : List String) : List (String × String) :=
  toolList.map (fun t => (pyLower t, t))

/-- The missing-required-argument test of _validate_tool_call: the key is
absent, or its value is None or the empty string. -/
def requiredMissing (args : List (String × Json)) (key : String) : Bool :=
  !dictContains args key ||
    match args.lookup key with
    | some Json.null => true
    | some (Json.str s) => s = ""
    | _ => false

/-- The arg_schema coercion loop of _validate_tool_call: keys absent from
the args are skipped, a failed coercion rejects the call, a successful one
replaces the value. -/
def coerceArgs (args : List (String × Json)) :
    List (String × List PyTy) → Except String (List (String × Json))
  | [] => Except.ok args
  | (key, expected) :: rest =>
    match args.lookup key with
    | none => coerceArgs args rest
    | some value =>
      let r := coerceValue value expected
      if r.2 then coerceArgs (dictSet args key r.1) rest
      else Except.error ("Invalid type for '" ++ key ++ "'")

/-- src/agent/output_parser.py _validate_tool_call, lines 144-177: unknown
tools are rejected, the canonical name is resolved case-insensitively,
missing required args reject the call, then the arg_schema coercion runs. -/
def validateToolCall (parsed : ParsedTool) (registered : List (String × String))
    (schemas : List (String × ToolSchema)) : Except String ToolCall :=
  let toolName := pyStrip parsed.name
  let toolKey := pyLower toolName
  match registered.lookup toolKey with
  | none => Except.error ("Unknown tool '" ++ toolName ++ "'")
  | some canonicalName =>
    let args := parsed.args
    let schema := (schemas.lookup canonicalName).getD { argSchema := [], requiredArgs := [] }
    let missing := schema.requiredArgs.filter (fun key => requiredMissing args key)
    if !missing.isEmpty then
      Except.error ("Missing required args: " ++ String.intercalate ", " missing)
    else
      match coerceArgs args schema.argSchema with
      | Except.ok args => Except.ok { name := canonicalName, args := args }
      | Except.error e => Except.error e

/-- The list branch of _parse_payload: normalise every item of a top-level
JSON array in order; the first normalisation error discards the payload. -/
def normalizeItems : List Json → Except String (List ParsedTool)
  | [] => Except.ok []
  | item :: rest =>
    match normalizePayload item with
    | Except.ok p => (normalizeItems rest).map (fun ps => p :: ps)
    | Except.error e => Except.error e

/-- src/agent/output_parser.py _parse_payload, lines 80-99: JSON-parse the
payload text (json.loads plus the textual repair pass, supplied as the parse
parameter), then treat a top-level array as a batch and anything else as a
single call. -/
def parsePayload (parse : String → Except String Json) (text : String) :
    Except String (List ParsedTool) :=
  match parse text with
  | Except.error e => Except.error e
  | Except.ok data =>
    match data with
    | Json.arr items => normalizeItems items
    | _ =>
      match normalizePayload data with
      | Except.ok p => Except.ok [p]
      | Except.error e => Except.error e

/-- The per-payload body of the strategy loop of extract_tool_calls (lines
63-73): a payload that fails to parse contributes nothing (its error is only
logged); otherwise every parsed tool that validates is appended to the
running result list and every rejected one is skipped. -/
def processPayload (parse : String → Except String Json)
    (registered : List (String × String)) (schemas : List (String × ToolSchema))
    (acc : List ToolCall) (payload : String) : List ToolCall :=
  match parsePayload parse payload with
  | Except.error _ => acc
  | Except.ok parsedTools =>
    acc ++ parsedTools.filterMap (fun p =>
      match validateToolCall p registered schemas with
      | Except.ok tc => some tc
      | Except.error _ => none)

/-- Run one strategy's payload list through the per-payload body. -/
def runStrategy (parse : String → Except String Json)
    (registered : List (String × String)) (schemas : List (String × ToolSchema))
    (payloads : List String) (acc : List ToolCall) : List ToolCall :=
  payloads.foldl (processPayload parse registered schemas) acc

/-- The strategy loop of extract_tool_calls (lines 59-78): strategies run in
list order on the raw text; a strategy with no payloads is skipped; after a
strategy runs, a non-empty result list is returned at once; when the list of
strategies is exhausted the parse failure is logged and the empty list is
returned. -/
def extractLoop (parse : String → Except String Json)
    (registered : List (String × String)) (schemas : List (String × ToolSchema))
    (rawText : String) :
    List (String → List String) → List ToolCall → List ToolCall
  | [], _ => []
  | strategy :: rest, results =>
    let payloads := strategy rawText
    if payloads.isEmpty then extractLoop parse registered schemas rawText rest results
    else
      let results := runStrategy parse registered schemas payloads results
      if results.isEmpty then extractLoop parse registered schemas rawText rest results
      else results

/-- The fixed strategy order of extract_tool_calls: code fence, inline
raw-JSON objects, bracket matching, repair.  The four payload extractors are
regex scanners over the raw text and enter the model as parameters. -/
def parserStrategies (codeFence rawJson bracketMatch repair : String → List String) :
    List (String → List String) :=
  [codeFence, rawJson, bracketMatch, repair]

/-- src/agent/output_parser.py extract_tool_calls, lines 40-78. -/
def extractToolCalls (parse : String → Except String Json)
    (codeFence rawJson bracketMatch repair : String → List String)
    (registeredTools : List String) (schemas : List (String × ToolSchema))
    (rawText : String) : List ToolCall :=
  extractLoop parse (registeredMap registeredTools) schemas rawText
    (parserStrategies codeFence rawJson bracketMatch repair) []

/-- The valid tool calls one strategy alone would produce on the raw text
(the specification-side yardstick the ordering property is stated with). -/
def strategyValidCalls (parse : String → Except String Json)
    (registered : List (String × String)) (schemas : List (String × ToolSchema))
    (rawText : String) (strategy : String → List String) : List ToolCall :=
  runStrategy parse registered schemas (strategy rawText) []

/-- First non-empty list of a list of lists, or the empty list. -/
def firstNonEmpty {α : Type} : List (List α) → List α
  | [] => []
  | l :: ls => if l.isEmpty then firstNonEmpty ls else l

/-- Left-biased choice on options (helper for stating the dispatch result). -/
def optionOr {α : Type} : Option α → Option α → Option α
  | some v, _ => some v
  | none, b => b

theorem optionOr_none_right {α : Type} (a : Option α) : optionOr a none = a := by
  cases a <;> rfl

theorem getLast?_cons_or {α : Type} (l : List α) (a : α) :
    (a :: l).getLast? = optionOr l.getLast? (some a) := by
  induction l generalizing a with
  | nil => rfl
  | cons b t ih =>
    rw [List.getLast?_cons_cons, ih b]
    cases h : t.getLast? <;> simp [optionOr]

theorem dispatchFrom_eq {α : Type} (exts : List (Ext α)) :
    ∀ r : Option α, dispatchFrom r exts = optionOr (handlerReturns exts).getLast? r := by
  induction exts with
  | nil => intro r; simp [dispatchFrom, handlerReturns, optionOr]
  | cons ext rest ih =>
    intro r
    cases hen : ext.enabled with
    | false =>
      rw [dispatchFrom]
      simp only [hen, Bool.not_false, if_true]
      rw [ih r]
      have : handlerReturns (ext :: rest) = handlerReturns rest := by
        simp [handlerReturns, hen]
      rw [this]
    | true =>
      have hhr : handlerReturns (ext :: rest) =
          (match ext.handler with
           | some (.returns (some v)) => v :: handlerReturns rest
           | _ => handlerReturns rest) := by
        cases hh : ext.handler with
        | none => simp [handlerReturns, hen, hh]
        | some b =>
          cases b with
          | raises e => simp [handlerReturns, hen, hh]
          | returns v => cases v <;> simp [handlerReturns, hen, hh]
      rw [dispatchFrom, hhr]
      cases hh : ext.handler with
      | none => simp [hen, hh, ih r]
      | some b =>
        cases b with
        | raises e => simp [hen, hh, ih r]
        | returns v =>
          cases v with
          | none => simp [hen, hh, ih r]
          | some w =>
            simp only [hen, Bool.not_true, if_false, hh, ih (some w)]
            rw [getLast?_cons_or]
            cases h : (handlerReturns rest).getLast? <;> simp [optionOr]

/-- C8.  For every hook dispatch, the handlers of all enabled extensions are
walked sequentially in registration order and the dispatch returns the last
non-None handler return value (None when no handler returns one); and a
handler that raises is caught: it neither stops the remaining handlers nor
changes what the dispatch returns. -/
theorem dispatch_last_non_null {α : Type} :
    (∀ exts : List (Ext α), dispatch exts = (handlerReturns exts).getLast?) ∧
    (∀ (xs ys : List (Ext α)) (nm : String) (enb : Bool) (e : String),
      dispatch (xs ++ { name := nm, enabled := enb,
                        handler := some (HandlerBehavior.raises e) } :: ys) =
        dispatch (xs ++ ys)) := by
  constructor
  · intro exts
    rw [dispatch, dispatchFrom_eq, optionOr_none_right]
  · intro xs ys nm enb e
    rw [dispatch, dispatch, dispatchFrom_eq, dispatchFrom_eq]
    have : handlerReturns (xs ++ Ext.mk nm enb (some (HandlerBehavior.raises e)) :: ys) =
        handlerReturns (xs ++ ys) := by
      simp only [handlerReturns, List.filterMap_append, List.filterMap_cons]
      cases enb <;> simp
    rw [this]

theorem monologueFrom_congr (steps steps' : Nat → IterationData) (maxIter : Nat) :
    ∀ (n iteration : Nat), maxIter - iteration = n →
      (∀ i, iteration < i → i ≤ maxIter →
        iterationDecision (steps i) = iterationDecision (steps' i)) →
      monologueFrom steps maxIter iteration = monologueFrom steps' maxIter iteration := by
  intro n
  induction n with
  | zero =>
    intro iteration hn _
    have hge : ¬ iteration < maxIter := by omega
    rw [monologueFrom]
    conv_rhs => rw [monologueFrom]
    simp [hge]
  | succ n ih =>
    intro iteration hn h
    rw [monologueFrom]
    conv_rhs => rw [monologueFrom]
    by_cases hlt : iteration < maxIter
    · simp only [hlt, if_true]
      rw [h (iteration + 1) (by omega) (by omega)]
      cases hd : iterationDecision (steps' (iteration + 1)) with
      | some s => rfl
      | none =>
        exact ih (iteration + 1) (by omega)
          (fun i hi hle => h i (by omega) hle)
    · simp [hlt]

theorem monologueFrom_fallback (steps : Nat → IterationData) (maxIter : Nat) :
    ∀ (n iteration : Nat), maxIter - iteration = n →
      (∀ i, iteration < i → i ≤ maxIter → iterationDecision (steps i) = none) →
      monologueFrom steps maxIter iteration = monologueFallback := by
  intro n
  induction n with
  | zero =>
    intro iteration hn _
    have hge : ¬ iteration < maxIter := by omega
    rw [monologueFrom]
    simp [hge]
  | succ n ih =>
    intro iteration hn h
    by_cases hlt : iteration < maxIter
    · rw [monologueFrom]
      simp only [hlt, if_true]
      rw [h (iteration + 1) (by omega) (by omega)]
      exact ih (iteration + 1) (by omega) (fun i hi hle => h i (by omega) hle)
    · rw [monologueFrom]
      simp [hlt]

/-- C3.  The monologue loop runs at most max_monologue_iterations
iterations: the returned string depends only on the data of iterations 1
through the cap (first conjunct), and when no iteration up to the cap
decides to return — no LLM error and no break_loop tool result — the
returned string is exactly the fallback literal (second conjunct).
Totality of the loop function is the always-returns part. -/
theorem monologue_iteration_cap :
    (∀ (steps steps' : Nat → IterationData) (maxIter : Nat),
      (∀ i, 1 ≤ i → i ≤ maxIter → steps i = steps' i) →
      monologue steps maxIter = monologue steps' maxIter) ∧
    (∀ (steps : Nat → IterationData) (maxIter : Nat),
      (∀ i, 1 ≤ i → i ≤ maxIter → iterationDecision (steps i) = none) →
      monologue steps maxIter = monologueFallback) := by
  constructor
  · intro steps steps' maxIter h
    exact monologueFrom_congr steps steps' maxIter maxIter 0 (by omega)
      (fun i hi hle => by rw [h i (by omega) hle])
  · intro steps maxIter h
    exact monologueFrom_fallback steps maxIter maxIter 0 (by omega)
      (fun i hi hle => h i (by omega) hle)

/-- C3 witness: with three iterations that all continue (a successful LLM
call and no tool results), the monologue of cap 3 returns the fallback
literal. -/
theorem monologue_iteration_cap_witness :
    monologue (fun _ => { llm := LlmOutcome.ok "thinking", results := [] }) 3 =
      monologueFallback :=
  monologue_iteration_cap.2 (fun _ => { llm := LlmOutcome.ok "thinking", results := [] }) 3
    (fun _ _ _ => rfl)

theorem runToolCall_fst (cfg : ToolExecutionConfig) (names : List String)
    (cache : ToolCache) (outcome : ExecOutcome) (tc : ToolCall) (tool : Option Tool) :
    ((runToolCall cfg names cache outcome tc tool).1).1 = tc := by
  cases tool <;> rfl

theorem runToolCallsSeq_map_fst (cfg : ToolExecutionConfig) (names : List String)
    (outcomes : Nat → ExecOutcome) (prepared : List (ToolCall × Option Tool)) :
    ∀ (cache : ToolCache) (i : Nat),
      (runToolCallsSeq cfg names outcomes cache i prepared).map (fun r => r.1) =
        prepared.map Prod.fst := by
  induction prepared with
  | nil => intro cache i; rfl
  | cons p rest ih =>
    intro cache i
    cases p with
    | mk tc tool =>
      rw [runToolCallsSeq]
      simp only [List.map_cons, ih, runToolCall_fst]

theorem runToolCallsSeq_get (cfg : ToolExecutionConfig) (names : List String)
    (outcomes : Nat → ExecOutcome) (prepared : List (ToolCall × Option Tool)) :
    ∀ (cache : ToolCache) (i k : Nat) (hk : k < prepared.length),
      ∃ c : ToolCache,
        (runToolCallsSeq cfg names outcomes cache i prepared).get? k =
          some (runToolCall cfg names c (outcomes (i + k))
            (prepared.get ⟨k, hk⟩).1 (prepared.get ⟨k, hk⟩).2).1 := by
  induction prepared with
  | nil =>
    intro cache i k hk
    exact absurd hk (by simp)
  | cons p rest ih =>
    intro cache i k hk
    cases p with
    | mk tc tool =>
      cases k with
      | zero => exact ⟨cache, by simp [runToolCallsSeq]⟩
      | succ k =>
        have hk' : k < rest.length := by simpa using hk
        obtain ⟨c, hc⟩ :=
          ih (runToolCall cfg names cache (outcomes i) tc tool).2 (i + 1) k hk'
        refine ⟨c, ?_⟩
        rw [runToolCallsSeq]
        have harith : i + 1 + k = i + (k + 1) := by omega
        simpa [harith] using hc

theorem runToolCallsGather_map_fst (cfg : ToolExecutionConfig) (names : List String)
    (caches : Nat → ToolCache) (outcomes : Nat → ExecOutcome)
    (prepared : List (ToolCall × Option Tool)) :
    ∀ i : Nat,
      (runToolCallsGather cfg names caches outcomes i prepared).map (fun r => r.1) =
        prepared.map Prod.fst := by
  induction prepared with
  | nil => intro i; rfl
  | cons p rest ih =>
    intro i
    cases p with
    | mk tc tool =>
      rw [runToolCallsGather]
      simp only [List.map_cons, ih, runToolCall_fst]

theorem runToolCallsGather_get (cfg : ToolExecutionConfig) (names : List String)
    (caches : Nat → ToolCache) (outcomes : Nat → ExecOutcome)
    (prepared : List (ToolCall × Option Tool)) :
    ∀ (i k : Nat) (hk : k < prepared.length),
      (runToolCallsGather cfg names caches outcomes i prepared).get? k =
        some (runToolCall cfg names (caches (i + k)) (outcomes (i + k))
          (prepared.get ⟨k, hk⟩).1 (prepared.get ⟨k, hk⟩).2).1 := by
  induction prepared with
  | nil =>
    intro i k hk
    exact absurd hk (by simp)
  | cons p rest ih =>
    intro i k hk
    cases p with
    | mk tc tool =>
      cases k with
      | zero => simp [runToolCallsGather]
      | succ k =>
        have hk' : k < rest.length := by simpa using hk
        have hc := ih (i + 1) k hk'
        rw [runToolCallsGather]
        have harith : i + 1 + k = i + (k + 1) := by omega
        simpa [harith] using hc

theorem executeToolCalls_map_fst (cfg : ToolExecutionConfig) (reg : ToolRegistry)
    (cache : ToolCache) (caches : Nat → ToolCache) (outcomes : Nat → ExecOutcome)
    (toolCalls : List ToolCall) :
    (executeToolCalls cfg reg cache caches outcomes toolCalls).map (fun r => r.1) =
      toolCalls := by
  rw [executeToolCalls]
  by_cases hne : toolCalls.isEmpty
  · rw [if_pos hne]
    rw [List.isEmpty_iff] at hne
    simp [hne]
  · rw [if_neg hne]
    by_cases hbr : (toolCalls.length == 1 ||
        !((toolCalls.map (fun tc => (tc, getTool reg tc.name))).all (fun p =>
          match p.2 with
          | none => false
          | some t => t.isParallelSafe p.1.args))) = true
    · rw [if_pos hbr, runToolCallsSeq_map_fst, List.map_map]
      exact List.map_id toolCalls
    · rw [if_neg hbr, runToolCallsGather_map_fst, List.map_map]
      exact List.map_id toolCalls

theorem executeToolCalls_length (cfg : ToolExecutionConfig) (reg : ToolRegistry)
    (cache : ToolCache) (caches : Nat → ToolCache) (outcomes : Nat → ExecOutcome)
    (toolCalls : List ToolCall) :
    (executeToolCalls cfg reg cache caches outcomes toolCalls).length =
      toolCalls.length := by
  have h := executeToolCalls_map_fst cfg reg cache caches outcomes toolCalls
  have := congrArg List.length h
  simpa using this

theorem executeToolCalls_get (cfg : ToolExecutionConfig) (reg : ToolRegistry)
    (cache : ToolCache) (caches : Nat → ToolCache) (outcomes : Nat → ExecOutcome)
    (toolCalls : List ToolCall) :
    ∀ (k : Nat) (hk : k < toolCalls.length),
      ∃ c : ToolCache,
        (executeToolCalls cfg reg cache caches outcomes toolCalls).get? k =
          some (runToolCall cfg (toolNames reg) c (outcomes k)
            (toolCalls.get ⟨k, hk⟩) (getTool reg (toolCalls.get ⟨k, hk⟩).name)).1 := by
  intro k hk
  have hkp : k < (toolCalls.map (fun tc => (tc, getTool reg tc.name))).length := by
    simpa using hk
  have hget : (toolCalls.map (fun tc => (tc, getTool reg tc.name))).get ⟨k, hkp⟩ =
      (toolCalls.get ⟨k, hk⟩, getTool reg (toolCalls.get ⟨k, hk⟩).name) := by
    simp
  rw [executeToolCalls]
  by_cases hne : toolCalls.isEmpty
  · rw [List.isEmpty_iff] at hne
    subst hne
    exact absurd hk (by simp)
  · rw [if_neg hne]
    by_cases hbr : (toolCalls.length == 1 ||
        !((toolCalls.map (fun tc => (tc, getTool reg tc.name))).all (fun p =>
          match p.2 with
          | none => false
          | some t => t.isParallelSafe p.1.args))) = true
    · rw [if_pos hbr]
      obtain ⟨c, hc⟩ := runToolCallsSeq_get cfg (toolNames reg) outcomes
        (toolCalls.map (fun tc => (tc, getTool reg tc.name))) cache 0 k hkp
      refine ⟨c, ?_⟩
      rw [hc, hget]
      simp
    · rw [if_neg hbr]
      have hc := runToolCallsGather_get cfg (toolNames reg) caches outcomes
        (toolCalls.map (fun tc => (tc, getTool reg tc.name))) 0 k hkp
      refine ⟨caches (0 + k), ?_⟩
      rw [hc, hget]
      simp

/-- C1.  For every invocation of _execute_tool_calls, the returned list has
one triple per input call, the k-th triple's first component is the k-th
input ToolCall, and the k-th triple is the result of running the k-th input
call (its resolved tool, its outcome) — in whichever branch the batch takes,
sequential or concurrent, since the statement quantifies over all inputs and
the branch is chosen inside executeToolCalls. -/
theorem execute_batch_preserves_order (cfg : ToolExecutionConfig) (reg : ToolRegistry)
    (cache : ToolCache) (caches : Nat → ToolCache) (outcomes : Nat → ExecOutcome)
    (toolCalls : List ToolCall) :
    (executeToolCalls cfg reg cache caches outcomes toolCalls).length =
      toolCalls.length ∧
    (executeToolCalls cfg reg cache caches outcomes toolCalls).map (fun r => r.1) =
      toolCalls ∧
    ∀ (k : Nat) (hk : k < toolCalls.length),
      ∃ c : ToolCache,
        (executeToolCalls cfg reg cache caches outcomes toolCalls).get? k =
          some (runToolCall cfg (toolNames reg) c (outcomes k)
            (toolCalls.get ⟨k, hk⟩) (getTool reg (toolCalls.get ⟨k, hk⟩).name)).1 :=
  ⟨executeToolCalls_length cfg reg cache caches outcomes toolCalls,
   executeToolCalls_map_fst cfg reg cache caches outcomes toolCalls,
   executeToolCalls_get cfg reg cache caches outcomes toolCalls⟩

/-- C1 witness: a concrete two-call batch (one cacheable echo tool), slot 0
holds the result of running call 0. -/
theorem execute_batch_preserves_order_witness :
    ∃ c : ToolCache,
      (executeToolCalls { defaultTimeout := 300, timeouts := [], cacheEnabled := true }
        { tools := [("echo", { shouldCache := fun _ => true,
                               isParallelSafe := fun _ => false,
                               timeoutSeconds := none })] }
        [] (fun _ => []) (fun _ => ExecOutcome.ok { message := "ok" })
        [{ name := "echo" }, { name := "missing" }]).get? 0 =
        some (runToolCall { defaultTimeout := 300, timeouts := [], cacheEnabled := true }
          (toolNames { tools := [("echo", { shouldCache := fun _ => true,
                                            isParallelSafe := fun _ => false,
                                            timeoutSeconds := none })] })
          c (ExecOutcome.ok { message := "ok" })
          ({ name := "echo" } : ToolCall)
          (getTool { tools := [("echo", { shouldCache := fun _ => true,
                                          isParallelSafe := fun _ => false,
                                          timeoutSeconds := none })] } "echo")).1 :=
  (execute_batch_preserves_order { defaultTimeout := 300, timeouts := [], cacheEnabled := true }
    { tools := [("echo", { shouldCache := fun _ => true,
                           isParallelSafe := fun _ => false,
                           timeoutSeconds := none })] }
    [] (fun _ => []) (fun _ => ExecOutcome.ok { message := "ok" })
    [{ name := "echo" }, { name := "missing" }]).2.2 0 (by decide)

theorem iterationHistory_eq (history : List Message) (fullResponse : String)
    (results : List (ToolCall × Response × Bool)) :
    iterationHistory history fullResponse results =
      (history ++ [{ role := "assistant", content := fullResponse }]) ++
        results.map (fun r =>
          { role := "system", content := toolResultMessage r.1 r.2.1 }) := by
  rw [iterationHistory]
  have hstep : ∀ (rs : List (ToolCall × Response × Bool)) (start : List Message),
      rs.foldl (fun h r => appendMessage h "system" (toolResultMessage r.1 r.2.1)) start =
        start ++ rs.map (fun r =>
          { role := "system", content := toolResultMessage r.1 r.2.1 }) := by
    intro rs
    induction rs with
    | nil => intro start; simp
    | cons r rest ih =>
      intro start
      rw [List.foldl_cons, ih]
      simp [appendMessage, ollamaRole]
  rw [hstep]
  rfl

/-- C2.  In every monologue iteration that parsed N >= 1 tool calls, exactly
1 + N messages are appended to the history: first the assistant message
holding the full LLM response, then N system messages in input order, the
k-th one reading "[Tool '<name>' result]:\n<message>" built from the k-th
input ToolCall and the Response its execution produced. -/
theorem iteration_history_growth (cfg : ToolExecutionConfig) (reg : ToolRegistry)
    (cache : ToolCache) (caches : Nat → ToolCache) (outcomes : Nat → ExecOutcome)
    (history : List Message) (fullResponse : String) (toolCalls : List ToolCall)
    (hne : toolCalls ≠ []) :
    (iterationHistory history fullResponse
        (executeToolCalls cfg reg cache caches outcomes toolCalls)).length =
      history.length + 1 + toolCalls.length ∧
    (iterationHistory history fullResponse
        (executeToolCalls cfg reg cache caches outcomes toolCalls)).take history.length =
      history ∧
    (iterationHistory history fullResponse
        (executeToolCalls cfg reg cache caches outcomes toolCalls)).get? history.length =
      some { role := "assistant", content := fullResponse } ∧
    ∀ (k : Nat) (hk : k < toolCalls.length), ∃ rb : Response × Bool,
      (executeToolCalls cfg reg cache caches outcomes toolCalls).get? k =
        some (toolCalls.get ⟨k, hk⟩, rb) ∧
      (iterationHistory history fullResponse
          (executeToolCalls cfg reg cache caches outcomes toolCalls)).get?
          (history.length + 1 + k) =
        some { role := "system",
               content := "[Tool '" ++ (toolCalls.get ⟨k, hk⟩).name ++ "' result]:\n" ++
                 rb.1.message } := by
  have hlen := executeToolCalls_length cfg reg cache caches outcomes toolCalls
  rw [iterationHistory_eq]
  refine ⟨?_, ?_, ?_, ?_⟩
  · simp [hlen]
    omega
  · rw [List.append_assoc]
    exact List.take_left history _
  · rw [List.append_assoc]
    rw [List.get?_append_right (by omega)]
    simp
  · intro k hk
    obtain ⟨c, hc⟩ := executeToolCalls_get cfg reg cache caches outcomes toolCalls k hk
    have hfst := runToolCall_fst cfg (toolNames reg) c (outcomes k)
      (toolCalls.get ⟨k, hk⟩) (getTool reg (toolCalls.get ⟨k, hk⟩).name)
    refine ⟨((runToolCall cfg (toolNames reg) c (outcomes k)
      (toolCalls.get ⟨k, hk⟩) (getTool reg (toolCalls.get ⟨k, hk⟩).name)).1).2, ?_, ?_⟩
    · rw [hc]
      exact congrArg some (Prod.ext hfst rfl)
    · rw [List.append_assoc]
      rw [List.get?_append_right (by omega)]
      have hidx : history.length + 1 + k - history.length = 1 + k := by omega
      rw [hidx]
      have h1k : (1 : Nat) + k = k + 1 := by omega
      rw [h1k]
      rw [List.singleton_append, List.get?_cons_succ]
      rw [List.get?_map, hc]
      simp only [List.get_eq_getElem] at hfst
      simp [toolResultMessage, hfst]

/-- C2 witness: a singleton batch on a one-tool registry appends the
assistant message at the old history length and the tool-result system
message right after it. -/
theorem iteration_history_growth_witness :
    ∃ rb : Response × Bool,
      (executeToolCalls { defaultTimeout := 300, timeouts := [], cacheEnabled := true }
        { tools := [("echo", { shouldCache := fun _ => false,
                               isParallelSafe := fun _ => true,
                               timeoutSeconds := none })] }
        [] (fun _ => []) (fun _ => ExecOutcome.ok { message := "hello" })
        [{ name := "echo" }]).get? 0 =
        some (({ name := "echo" } : ToolCall), rb) ∧
      (iterationHistory [{ role := "user", content := "hi" }] "resp"
          (executeToolCalls { defaultTimeout := 300, timeouts := [], cacheEnabled := true }
            { tools := [("echo", { shouldCache := fun _ => false,
                                   isParallelSafe := fun _ => true,
                                   timeoutSeconds := none })] }
            [] (fun _ => []) (fun _ => ExecOutcome.ok { message := "hello" })
            [{ name := "echo" }])).get? (1 + 1 + 0) =
        some { role := "system",
               content := "[Tool '" ++ ({ name := "echo" } : ToolCall).name ++
                 "' result]:\n" ++ rb.1.message } :=
  (iteration_history_growth { defaultTimeout := 300, timeouts := [], cacheEnabled := true }
    { tools := [("echo", { shouldCache := fun _ => false,
                           isParallelSafe := fun _ => true,
                           timeoutSeconds := none })] }
    [] (fun _ => []) (fun _ => ExecOutcome.ok { message := "hello" })
    [{ role := "user", content := "hi" }] "resp" [{ name := "echo" }]
    (by simp)).2.2.2 0 (by decide)

theorem executeToolWithInstance_miss (cfg : ToolExecutionConfig) (cache : ToolCache)
    (outcome : ExecOutcome) (tc : ToolCall) (tool : Tool)
    (h : (if cfg.cacheEnabled && tool.shouldCache tc.args then
        cache.lookup (toolCacheKey tc) else none) = none) :
    executeToolWithInstance cfg cache outcome tc tool =
      { response :=
          match outcome with
          | .ok r => r
          | .timedOut =>
            { message := "[Tool '" ++ tc.name ++ "' timed out after " ++
                fmtTenths (getToolTimeout cfg tc.name tool) ++ "s]" }
          | .raised e =>
            { message := "[Tool '" ++ tc.name ++ "' error: " ++ e ++ "]" },
        fromCache := false,
        cache :=
          if cfg.cacheEnabled && tool.shouldCache tc.args then
            (toolCacheKey tc,
              ⟨(match outcome with
                | .ok r => r
                | .timedOut =>
                  ({ message := "[Tool '" ++ tc.name ++ "' timed out after " ++
                      fmtTenths (getToolTimeout cfg tc.name tool) ++ "s]" } : Response)
                | .raised e =>
                  ({ message := "[Tool '" ++ tc.name ++ "' error: " ++ e ++ "]" } :
                    Response)).message,
               (match outcome with
                | .ok r => r
                | .timedOut =>
                  ({ message := "[Tool '" ++ tc.name ++ "' timed out after " ++
                      fmtTenths (getToolTimeout cfg tc.name tool) ++ "s]" } : Response)
                | .raised e =>
                  ({ message := "[Tool '" ++ tc.name ++ "' error: " ++ e ++ "]" } :
                    Response)).breakLoop⟩) :: cache
          else cache,
        executed := true } := by
  rw [executeToolWithInstance]
  simp only [h]

theorem executeToolWithInstance_hit (cfg : ToolExecutionConfig) (cache : ToolCache)
    (outcome : ExecOutcome) (tc : ToolCall) (tool : Tool) (entry : CacheEntry)
    (hen : cfg.cacheEnabled = true) (hsc : tool.shouldCache tc.args = true)
    (h : cache.lookup (toolCacheKey tc) = some entry) :
    executeToolWithInstance cfg cache outcome tc tool =
      { response := { message := entry.message, breakLoop := entry.breakLoop },
        fromCache := true, cache := cache, executed := false } := by
  rw [executeToolWithInstance]
  simp only [hen, hsc, Bool.and_self, if_true, h]

/-- C6.  For every tool call not served from the cache, a timeout expiry
yields the Response "[Tool '<name>' timed out after <t>s]" with t the
resolved timeout and break_loop false, and any other exception from the
before/execute/after sequence yields "[Tool '<name>' error: <e>]" with
break_loop false; and an iteration whose results all carry break_loop false
does not end the monologue loop. -/
theorem tool_timeout_error_messages (cfg : ToolExecutionConfig) (cache : ToolCache)
    (tc : ToolCall) (tool : Tool)
    (hmiss : cfg.cacheEnabled = false ∨ tool.shouldCache tc.args = false ∨
      cache.lookup (toolCacheKey tc) = none) :
    (executeToolWithInstance cfg cache ExecOutcome.timedOut tc tool).response =
      { message := "[Tool '" ++ tc.name ++ "' timed out after " ++
          fmtTenths (getToolTimeout cfg tc.name tool) ++ "s]",
        breakLoop := false } ∧
    (∀ e : String,
      (executeToolWithInstance cfg cache (ExecOutcome.raised e) tc tool).response =
        { message := "[Tool '" ++ tc.name ++ "' error: " ++ e ++ "]",
          breakLoop := false }) ∧
    (∀ (d : IterationData) (text : String), d.llm = LlmOutcome.ok text →
      (∀ r ∈ d.results, r.2.1.breakLoop = false) → iterationDecision d = none) := by
  have hnone : (if cfg.cacheEnabled && tool.shouldCache tc.args then
      cache.lookup (toolCacheKey tc) else none) = none := by
    rcases hmiss with h | h | h
    · simp [h]
    · simp [h]
    · by_cases hcc : (cfg.cacheEnabled && tool.shouldCache tc.args) = true
      · simp [hcc, h]
      · simp [hcc]
  refine ⟨?_, ?_, ?_⟩
  · rw [executeToolWithInstance_miss cfg cache ExecOutcome.timedOut tc tool hnone]
  · intro e
    rw [executeToolWithInstance_miss cfg cache (ExecOutcome.raised e) tc tool hnone]
  · intro d text hok hall
    rw [iterationDecision, hok]
    have : d.results.find? (fun r => r.2.1.breakLoop) = none := by
      rw [List.find?_eq_none]
      intro r hr
      simp [hall r hr]
    rw [this]

/-- C6 witness: a fresh cacheable call against an empty cache, default
timeout 30.0 seconds, times out with the exact literal. -/
theorem tool_timeout_error_messages_witness :
    (executeToolWithInstance { defaultTimeout := 300, timeouts := [], cacheEnabled := true }
        [] ExecOutcome.timedOut ({ name := "sleep" } : ToolCall)
        { shouldCache := fun _ => true, isParallelSafe := fun _ => true,
          timeoutSeconds := none }).response =
      { message := "[Tool 'sleep' timed out after 30.0s]", breakLoop := false } := by
  have h := (tool_timeout_error_messages
    { defaultTimeout := 300, timeouts := [], cacheEnabled := true } []
    ({ name := "sleep" } : ToolCall)
    { shouldCache := fun _ => true, isParallelSafe := fun _ => true,
      timeoutSeconds := none } (Or.inr (Or.inr rfl))).1
  exact h

/-- C7.  With caching enabled and should_cache true, two consecutive
invocations whose tool calls share the canonical-args cache key run the
before/execute/after sequence exactly once: the first executes and misses,
the second returns from the cache with the identical message and break_loop
value and does not execute. -/
theorem tool_cache_single_execution (cfg : ToolExecutionConfig) (cache : ToolCache)
    (tc1 tc2 : ToolCall) (tool : Tool) (outcome1 outcome2 : ExecOutcome)
    (hkey : toolCacheKey tc1 = toolCacheKey tc2)
    (hen : cfg.cacheEnabled = true)
    (hsc1 : tool.shouldCache tc1.args = true)
    (hsc2 : tool.shouldCache tc2.args = true)
    (hmiss : cache.lookup (toolCacheKey tc1) = none) :
    (executeToolWithInstance cfg cache outcome1 tc1 tool).executed = true ∧
    (executeToolWithInstance cfg cache outcome1 tc1 tool).fromCache = false ∧
    (executeToolWithInstance cfg (executeToolWithInstance cfg cache outcome1 tc1 tool).cache
        outcome2 tc2 tool).executed = false ∧
    (executeToolWithInstance cfg (executeToolWithInstance cfg cache outcome1 tc1 tool).cache
        outcome2 tc2 tool).fromCache = true ∧
    (executeToolWithInstance cfg (executeToolWithInstance cfg cache outcome1 tc1 tool).cache
        outcome2 tc2 tool).response.message =
      (executeToolWithInstance cfg cache outcome1 tc1 tool).response.message ∧
    (executeToolWithInstance cfg (executeToolWithInstance cfg cache outcome1 tc1 tool).cache
        outcome2 tc2 tool).response.breakLoop =
      (executeToolWithInstance cfg cache outcome1 tc1 tool).response.breakLoop := by
  have hnone : (if cfg.cacheEnabled && tool.shouldCache tc1.args then
      cache.lookup (toolCacheKey tc1) else none) = none := by
    simp [hen, hsc1, hmiss]
  have h1 := executeToolWithInstance_miss cfg cache outcome1 tc1 tool hnone
  have hcache1 : (executeToolWithInstance cfg cache outcome1 tc1 tool).cache =
      (toolCacheKey tc1,
        ⟨(executeToolWithInstance cfg cache outcome1 tc1 tool).response.message,
         (executeToolWithInstance cfg cache outcome1 tc1 tool).response.breakLoop⟩) ::
        cache := by
    rw [h1]
    simp [hen, hsc1]
  have hlook : ((executeToolWithInstance cfg cache outcome1 tc1 tool).cache).lookup
      (toolCacheKey tc2) =
      some ⟨(executeToolWithInstance cfg cache outcome1 tc1 tool).response.message,
            (executeToolWithInstance cfg cache outcome1 tc1 tool).response.breakLoop⟩ := by
    rw [hcache1, ← hkey]
    simp [List.lookup]
  have h2 := executeToolWithInstance_hit cfg
    (executeToolWithInstance cfg cache outcome1 tc1 tool).cache outcome2 tc2 tool
    ⟨(executeToolWithInstance cfg cache outcome1 tc1 tool).response.message,
     (executeToolWithInstance cfg cache outcome1 tc1 tool).response.breakLoop⟩
    hen hsc2 hlook
  refine ⟨?_, ?_, ?_, ?_, ?_, ?_⟩
  · rw [h1]
  · rw [h1]
  · rw [h2]
  · rw [h2]
  · rw [h2]
  · rw [h2]

/-- C7 witness: the same cacheable call twice on a fresh cache; the second
invocation is served from the cache and does not execute. -/
theorem tool_cache_single_execution_witness :
    (executeToolWithInstance { defaultTimeout := 300, timeouts := [], cacheEnabled := true }
        [] (ExecOutcome.ok { message := "ok" })
        ({ name := "counter", args := [("x", Json.num 1)] } : ToolCall)
        { shouldCache := fun _ => true, isParallelSafe := fun _ => true,
          timeoutSeconds := none }).executed = true ∧
    (executeToolWithInstance { defaultTimeout := 300, timeouts := [], cacheEnabled := true }
        ((executeToolWithInstance
            { defaultTimeout := 300, timeouts := [], cacheEnabled := true }
            [] (ExecOutcome.ok { message := "ok" })
            ({ name := "counter", args := [("x", Json.num 1)] } : ToolCall)
            { shouldCache := fun _ => true, isParallelSafe := fun _ => true,
              timeoutSeconds := none }).cache)
        (ExecOutcome.ok { message := "different" })
        ({ name := "counter", args := [("x", Json.num 1)] } : ToolCall)
        { shouldCache := fun _ => true, isParallelSafe := fun _ => true,
          timeoutSeconds := none }).executed = false ∧
    (executeToolWithInstance { defaultTimeout := 300, timeouts := [], cacheEnabled := true }
        ((executeToolWithInstance
            { defaultTimeout := 300, timeouts := [], cacheEnabled := true }
            [] (ExecOutcome.ok { message := "ok" })
            ({ name := "counter", args := [("x", Json.num 1)] } : ToolCall)
            { shouldCache := fun _ => true, isParallelSafe := fun _ => true,
              timeoutSeconds := none }).cache)
        (ExecOutcome.ok { message := "different" })
        ({ name := "counter", args := [("x", Json.num 1)] } : ToolCall)
        { shouldCache := fun _ => true, isParallelSafe := fun _ => true,
          timeoutSeconds := none }).response.message = "ok" := by
  have h := tool_cache_single_execution
    { defaultTimeout := 300, timeouts := [], cacheEnabled := true } []
    ({ name := "counter", args := [("x", Json.num 1)] } : ToolCall)
    ({ name := "counter", args := [("x", Json.num 1)] } : ToolCall)
    { shouldCache := fun _ => true, isParallelSafe := fun _ => true,
      timeoutSeconds := none }
    (ExecOutcome.ok { message := "ok" }) (ExecOutcome.ok { message := "different" })
    rfl rfl rfl rfl rfl
  exact ⟨h.1, h.2.2.1, h.2.2.2.2.1.trans rfl⟩

/-- C10.  A cacheable call whose run times out or raises stores that very
timeout or error response in the session cache under its canonical-args key,
so the next invocation with the same key returns the stored message with
from_cache true and without executing the tool. -/
theorem failed_result_cached (cfg : ToolExecutionConfig) (cache : ToolCache)
    (tc1 tc2 : ToolCall) (tool : Tool) (outcome1 outcome2 : ExecOutcome)
    (hkey : toolCacheKey tc1 = toolCacheKey tc2)
    (hen : cfg.cacheEnabled = true)
    (hsc1 : tool.shouldCache tc1.args = true)
    (hsc2 : tool.shouldCache tc2.args = true)
    (hmiss : cache.lookup (toolCacheKey tc1) = none)
    (hfail : outcome1 = ExecOutcome.timedOut ∨ ∃ e, outcome1 = ExecOutcome.raised e) :
    ((executeToolWithInstance cfg cache outcome1 tc1 tool).cache).lookup
        (toolCacheKey tc2) =
      some ⟨(executeToolWithInstance cfg cache outcome1 tc1 tool).response.message,
            false⟩ ∧
    (outcome1 = ExecOutcome.timedOut →
      (executeToolWithInstance cfg cache outcome1 tc1 tool).response.message =
        "[Tool '" ++ tc1.name ++ "' timed out after " ++
          fmtTenths (getToolTimeout cfg tc1.name tool) ++ "s]") ∧
    (∀ e, outcome1 = ExecOutcome.raised e →
      (executeToolWithInstance cfg cache outcome1 tc1 tool).response.message =
        "[Tool '" ++ tc1.name ++ "' error: " ++ e ++ "]") ∧
    (executeToolWithInstance cfg (executeToolWithInstance cfg cache outcome1 tc1 tool).cache
        outcome2 tc2 tool).fromCache = true ∧
    (executeToolWithInstance cfg (executeToolWithInstance cfg cache outcome1 tc1 tool).cache
        outcome2 tc2 tool).executed = false ∧
    (executeToolWithInstance cfg (executeToolWithInstance cfg cache outcome1 tc1 tool).cache
        outcome2 tc2 tool).response.message =
      (executeToolWithInstance cfg cache outcome1 tc1 tool).response.message := by
  have hnone : (if cfg.cacheEnabled && tool.shouldCache tc1.args then
      cache.lookup (toolCacheKey tc1) else none) = none := by
    simp [hen, hsc1, hmiss]
  have h1 := executeToolWithInstance_miss cfg cache outcome1 tc1 tool hnone
  have hbl : (executeToolWithInstance cfg cache outcome1 tc1 tool).response.breakLoop =
      false := by
    rcases hfail with h | ⟨e, h⟩ <;> subst h <;> rw [h1]
  have hcache1 : (executeToolWithInstance cfg cache outcome1 tc1 tool).cache =
      (toolCacheKey tc1,
        ⟨(executeToolWithInstance cfg cache outcome1 tc1 tool).response.message,
         (executeToolWithInstance cfg cache outcome1 tc1 tool).response.breakLoop⟩) ::
        cache := by
    rw [h1]
    simp [hen, hsc1]
  have hlook : ((executeToolWithInstance cfg cache outcome1 tc1 tool).cache).lookup
      (toolCacheKey tc2) =
      some ⟨(executeToolWithInstance cfg cache outcome1 tc1 tool).response.message,
            (executeToolWithInstance cfg cache outcome1 tc1 tool).response.breakLoop⟩ := by
    rw [hcache1, ← hkey]
    simp [List.lookup]
  have h2 := executeToolWithInstance_hit cfg
    (executeToolWithInstance cfg cache outcome1 tc1 tool).cache outcome2 tc2 tool
    ⟨(executeToolWithInstance cfg cache outcome1 tc1 tool).response.message,
     (executeToolWithInstance cfg cache outcome1 tc1 tool).response.breakLoop⟩
    hen hsc2 hlook
  refine ⟨?_, ?_, ?_, ?_, ?_, ?_⟩
  · rw [hlook, hbl]
  · intro h
    subst h
    rw [h1]
  · intro e h
    subst h
    rw [h1]
  · rw [h2]
  · rw [h2]
  · rw [h2]

/-- C10 witness: a timed-out cacheable call stores the timeout response; the
repeat invocation is a cache hit carrying the same timeout message. -/
theorem failed_result_cached_witness :
    ((executeToolWithInstance { defaultTimeout := 5, timeouts := [], cacheEnabled := true }
        [] ExecOutcome.timedOut ({ name := "sleep" } : ToolCall)
        { shouldCache := fun _ => true, isParallelSafe := fun _ => true,
          timeoutSeconds := none }).cache).lookup
      (toolCacheKey ({ name := "sleep" } : ToolCall)) =
      some ⟨(executeToolWithInstance
          { defaultTimeout := 5, timeouts := [], cacheEnabled := true }
          [] ExecOutcome.timedOut ({ name := "sleep" } : ToolCall)
          { shouldCache := fun _ => true, isParallelSafe := fun _ => true,
            timeoutSeconds := none }).response.message, false⟩ :=
  (failed_result_cached { defaultTimeout := 5, timeouts := [], cacheEnabled := true }
    [] ({ name := "sleep" } : ToolCall) ({ name := "sleep" } : ToolCall)
    { shouldCache := fun _ => true, isParallelSafe := fun _ => true,
      timeoutSeconds := none }
    ExecOutcome.timedOut (ExecOutcome.ok { message := "x" })
    rfl rfl rfl rfl rfl (Or.inl rfl)).1

theorem processPayload_acc (parse : String → Except String Json)
    (registered : List (String × String)) (schemas : List (String × ToolSchema))
    (acc : List ToolCall) (payload : String) :
    processPayload parse registered schemas acc payload =
      acc ++ processPayload parse registered schemas [] payload := by
  rw [processPayload, processPayload]
  cases parsePayload parse payload <;> simp

theorem runStrategy_acc (parse : String → Except String Json)
    (registered : List (String × String)) (schemas : List (String × ToolSchema))
    (payloads : List String) :
    ∀ acc : List ToolCall,
      runStrategy parse registered schemas payloads acc =
        acc ++ runStrategy parse registered schemas payloads [] := by
  induction payloads with
  | nil => intro acc; simp [runStrategy]
  | cons p ps ih =>
    intro acc
    rw [runStrategy, List.foldl_cons, ← runStrategy, ih]
    conv_rhs => rw [runStrategy, List.foldl_cons, ← runStrategy, ih]
    rw [processPayload_acc]
    simp

theorem extractLoop_firstNonEmpty (parse : String → Except String Json)
    (registered : List (String × String)) (schemas : List (String × ToolSchema))
    (rawText : String) :
    ∀ strats : List (String → List String),
      extractLoop parse registered schemas rawText strats [] =
        firstNonEmpty
          (strats.map (strategyValidCalls parse registered schemas rawText)) := by
  intro strats
  induction strats with
  | nil => rfl
  | cons s rest ih =>
    rw [extractLoop, List.map_cons, firstNonEmpty]
    by_cases hp : (s rawText).isEmpty
    · have hval : strategyValidCalls parse registered schemas rawText s = [] := by
        rw [strategyValidCalls, List.isEmpty_iff.mp hp]
        rfl
      rw [if_pos hp, ih, hval]
      simp
    · rw [if_neg hp]
      by_cases hr : (runStrategy parse registered schemas (s rawText) []).isEmpty
      · rw [if_pos hr, List.isEmpty_iff.mp hr, ih]
        have hval : strategyValidCalls parse registered schemas rawText s = [] := by
          rw [strategyValidCalls]
          exact List.isEmpty_iff.mp hr
        rw [hval]
        simp
      · rw [if_neg hr]
        have hdef : strategyValidCalls parse registered schemas rawText s =
            runStrategy parse registered schemas (s rawText) [] := rfl
        have hval : (strategyValidCalls parse registered schemas rawText s).isEmpty =
            false := by
          rw [hdef]
          simpa using hr
        rw [hval]
        simp [hdef]

/-- C4.  extract_tool_calls attempts the code-fence, raw-JSON, bracket-match
and repair strategies in that fixed order and returns exactly the full
valid-call list of the first strategy that yields at least one valid call;
the equation also forces the empty list (and no exception, the function
being total) when every strategy yields none. -/
theorem parser_first_strategy_wins (parse : String → Except String Json)
    (codeFence rawJson bracketMatch repair : String → List String)
    (registeredTools : List String) (schemas : List (String × ToolSchema))
    (rawText : String) :
    extractToolCalls parse codeFence rawJson bracketMatch repair registeredTools
        schemas rawText =
      firstNonEmpty ((parserStrategies codeFence rawJson bracketMatch repair).map
        (strategyValidCalls parse (registeredMap registeredTools) schemas rawText)) := by
  rw [extractToolCalls, extractLoop_firstNonEmpty]

/-- C5.  A parsed call missing a required argument is rejected by
_validate_tool_call (first conjunct); a payload whose text parses to a
top-level JSON array is a batch whose rejected members contribute nothing
while every valid member is kept, in order (second conjunct); in particular
every valid sibling of a rejected call appears in the returned list (third
conjunct). -/
theorem rejected_call_keeps_siblings :
    (∀ (parsed : ParsedTool) (registered : List (String × String))
        (schemas : List (String × ToolSchema)) (canonical : String)
        (schema : ToolSchema) (key : String),
      registered.lookup (pyLower (pyStrip parsed.name)) = some canonical →
      schemas.lookup canonical = some schema →
      key ∈ schema.requiredArgs →
      requiredMissing parsed.args key = true →
      ∃ e, validateToolCall parsed registered schemas = Except.error e) ∧
    (∀ (parse : String → Except String Json) (text : String) (items : List Json)
        (ps : List ParsedTool) (registered : List (String × String))
        (schemas : List (String × ToolSchema)) (acc : List ToolCall),
      parse text = Except.ok (Json.arr items) →
      normalizeItems items = Except.ok ps →
      processPayload parse registered schemas acc text =
        acc ++ ps.filterMap (fun p => (validateToolCall p registered schemas).toOption)) ∧
    (∀ (parse : String → Except String Json) (text : String) (items : List Json)
        (ps : List ParsedTool) (registered : List (String × String))
        (schemas : List (String × ToolSchema)) (acc : List ToolCall)
        (p : ParsedTool) (tc : ToolCall),
      parse text = Except.ok (Json.arr items) →
      normalizeItems items = Except.ok ps →
      p ∈ ps → validateToolCall p registered schemas = Except.ok tc →
      tc ∈ processPayload parse registered schemas acc text) := by
  have hbatch : ∀ (parse : String → Except String Json) (text : String)
      (items : List Json) (ps : List ParsedTool) (registered : List (String × String))
      (schemas : List (String × ToolSchema)) (acc : List ToolCall),
      parse text = Except.ok (Json.arr items) →
      normalizeItems items = Except.ok ps →
      processPayload parse registered schemas acc text =
        acc ++ ps.filterMap (fun p => (validateToolCall p registered schemas).toOption) := by
    intro parse text items ps registered schemas acc hparse hnorm
    rw [processPayload, parsePayload, hparse]
    simp only [hnorm]
    congr 1
    apply List.filterMap_congr
    intro p _
    cases validateToolCall p registered schemas <;> simp [Except.toOption]
  refine ⟨?_, hbatch, ?_⟩
  · intro parsed registered schemas canonical schema key hreg hsch hkey hmiss
    rw [validateToolCall]
    simp only [hreg, hsch]
    have hmem : key ∈ schema.requiredArgs.filter
        (fun k => requiredMissing parsed.args k) :=
      List.mem_filter.mpr ⟨hkey, hmiss⟩
    have hne : (schema.requiredArgs.filter
        (fun k => requiredMissing parsed.args k)).isEmpty = false := by
      cases hfe : (schema.requiredArgs.filter
          (fun k => requiredMissing parsed.args k)).isEmpty
      · rfl
      · rw [List.isEmpty_iff.mp hfe] at hmem
        exact absurd hmem (List.not_mem_nil key)
    simp only [Option.getD_some, hne, Bool.not_false, if_true]
    exact ⟨_, rfl⟩
  · intro parse text items ps registered schemas acc p tc hparse hnorm hp hval
    rw [hbatch parse text items ps registered schemas acc hparse hnorm]
    apply List.mem_append_right
    exact List.mem_filterMap.mpr ⟨p, hp, by rw [hval]; rfl⟩

/-- C5 witness: a two-element batch where the first call lacks the required
text argument; the batch yields exactly the valid sibling. -/
theorem rejected_call_keeps_siblings_witness :
    processPayload
      (fun s => if s = "batch" then
        Except.ok (Json.arr
          [Json.obj [("tool_name", Json.str "response")],
           Json.obj [("tool_name", Json.str "response"),
                     ("tool_args", Json.obj [("text", Json.str "hi")])]])
        else Except.error "invalid JSON")
      (registeredMap ["response"])
      [("response", { argSchema := [("text", [PyTy.pyStrTy])],
                      requiredArgs := ["text"] })]
      [] "batch" =
      [{ name := "response", args := [("text", Json.str "hi")] }] := by
  have h := rejected_call_keeps_siblings.2.1
    (fun s => if s = "batch" then
      Except.ok (Json.arr
        [Json.obj [("tool_name", Json.str "response")],
         Json.obj [("tool_name", Json.str "response"),
                   ("tool_args", Json.obj [("text", Json.str "hi")])]])
      else Except.error "invalid JSON")
    "batch"
    [Json.obj [("tool_name", Json.str "response")],
     Json.obj [("tool_name", Json.str "response"),
               ("tool_args", Json.obj [("text", Json.str "hi")])]]
    [{ name := "response", args := [] },
     { name := "response", args := [("text", Json.str "hi")] }]
    (registeredMap ["response"])
    [("response", { argSchema := [("text", [PyTy.pyStrTy])],
                    requiredArgs := ["text"] })]
    [] rfl rfl
  exact h.trans rfl

theorem strStartsWith_empty_colon (m : String) : strStartsWith "" (m ++ ":") = false := by
  rw [strStartsWith]
  have h : (m ++ ":").toList = m.toList ++ [':'] := by
    show (m ++ ":").data = m.data ++ [':']
    rw [String.data_append]
  rw [h]
  cases hm : m.toList with
  | nil => rfl
  | cons c cs => rfl

theorem isAvailable_iff (avail : List String) (m : String) (hm : m ≠ "") :
    isAvailable (some avail) m = true ↔
      (m ∈ avail ∨ ∃ n ∈ avail, strStartsWith n (m ++ ":") = true) := by
  rw [isAvailable, if_neg hm]
  rw [filterMissingModels]
  simp only [List.filter_cons, List.filter_nil]
  have hdm : decide (m ≠ "") = true := by simp [hm]
  rw [hdm]
  simp only [Bool.true_and]
  cases hav : modelAvailable m (avail.filter (fun x => decide (x ≠ ""))) with
  | true =>
    simp only [Bool.not_true, if_false, List.isEmpty_nil]
    constructor
    · intro _
      rw [modelAvailable, Bool.or_eq_true] at hav
      rcases hav with hc | ha
      · left
        have := List.mem_of_elem_eq_true hc
        exact (List.mem_filter.mp this).1
      · right
        rw [List.any_eq_true] at ha
        obtain ⟨n, hn, hsw⟩ := ha
        exact ⟨n, (List.mem_filter.mp hn).1, hsw⟩
    · intro _
      rfl
  | false =>
    simp only [Bool.not_false, if_true]
    constructor
    · intro hcontra
      exact absurd hcontra (by simp [List.isEmpty])
    · intro hor
      exfalso
      rw [modelAvailable] at hav
      rcases hor with hc | ⟨n, hn, hsw⟩
      · have hmem : m ∈ avail.filter (fun x => decide (x ≠ "")) :=
          List.mem_filter.mpr ⟨hc, by simp [hm]⟩
        have : (avail.filter (fun x => decide (x ≠ ""))).contains m = true :=
          List.elem_eq_true_of_mem hmem
        rw [this] at hav
        simp at hav
      · have hnne : n ≠ "" := by
          intro hn0
          rw [hn0, strStartsWith_empty_colon] at hsw
          exact Bool.false_ne_true hsw
        have hmem : n ∈ avail.filter (fun x => decide (x ≠ "")) :=
          List.mem_filter.mpr ⟨hn, by simp [hnne]⟩
        have hany : (avail.filter (fun x => decide (x ≠ ""))).any
            (fun n => strStartsWith n (m ++ ":")) = true :=
          List.any_eq_true.mpr ⟨n, hmem, hsw⟩
        rw [hany] at hav
        simp at hav

/-- C9.  With routing enabled and an observed model list, a routed model
that is not available falls back to the default route's model, and when
that is unavailable too the configured chat model is returned; a model
counts as available exactly when the observed list holds its name or a
name starting with "<name>:". -/
theorem router_availability_fallback (cfg : ModelRouterConfig) (chatModelName : String)
    (avail : List String) (messages : List Message) (lastToolName : Option String)
    (hen : cfg.enabled = true)
    (hroute : isAvailable (some avail)
      (modelForRoute cfg chatModelName (routeKeyFor cfg messages lastToolName)) = false) :
    (isAvailable (some avail) (defaultModel cfg chatModelName) = true →
      selectModel cfg chatModelName (some avail) messages lastToolName =
        defaultModel cfg chatModelName) ∧
    (isAvailable (some avail) (defaultModel cfg chatModelName) = false →
      selectModel cfg chatModelName (some avail) messages lastToolName =
        chatModelName) ∧
    (∀ m : String, m ≠ "" →
      (isAvailable (some avail) m = true ↔
        (m ∈ avail ∨ ∃ n ∈ avail, strStartsWith n (m ++ ":") = true))) := by
  refine ⟨?_, ?_, fun m hm => isAvailable_iff avail m hm⟩
  · intro hdef
    rw [selectModel]
    simp [hen, hroute, hdef]
  · intro hdef
    rw [selectModel]
    simp [hen, hroute, hdef]

/-- C9 witness: routes reasoning/coding/summarization to b/c/s with default
b, observed models b and c, user message "Summarize the following.": the
summarization model s is unavailable, so the default b is selected. -/
theorem router_availability_fallback_witness :
    selectModel
      { enabled := true,
        routes := [("reasoning", "b"), ("coding", "c"), ("summarization", "s"),
                   ("default", "b")],
        toolAffinity := [] }
      "m" (some ["b", "c"])
      [{ role := "user", content := "Summarize the following." }] none = "b" := by
  have h := (router_availability_fallback
    { enabled := true,
      routes := [("reasoning", "b"), ("coding", "c"), ("summarization", "s"),
                 ("default", "b")],
      toolAffinity := [] }
    "m" ["b", "c"]
    [{ role := "user", content := "Summarize the following." }] none
    rfl rfl).1 rfl
  exact h

end AgentCore
